import Mathlib

/-!
# Verification of the `of_dn_parser` distinguished-name library

Shallow embedding of `src/lib.rs`: the DN parser (`FromStr for
DistinguishedName`), the serializer (`DistinguishedName::to_of_string`), the
attribute-type registry (`RdnType`) and the RFC4518 comparison normalizer
(`RdnComparator::new` / `DnComparator::new`).

Conventions of the embedding:
- Rust `String` values are represented as `List Nat` of Unicode scalar values
  (code points); raw byte strings (the parser input, hex-decoded octets) are
  `List Nat` of bytes (each `< 256`).
- `hex::FromHexError` is collapsed into the single constructor `Error.Hex` and
  both `Utf8Error`/`FromUtf8Error` into `Error.Utf8`; the source never
  distinguishes the payloads of these variants in behavior relevant here.
-/

deriving instance DecidableEq for Except

namespace OfDnParser

/-- Build a code-point list from a Lean string literal (for concrete inputs). -/
def str (s : String) : List Nat := s.data.map Char.toNat

/-- `ESCAPABLE_SYMBOLS` from `lib.rs`: the ten reserved symbols, as code
points / byte values (space, quote, octothorpe, plus, comma, semicolon,
less-than, equals, greater-than, backslash). -/
def ESCAPABLE_SYMBOLS : List Nat := [32, 34, 35, 43, 44, 59, 60, 61, 62, 92]

/-- The supported RDN types (`enum RdnType`). -/
inductive RdnType where
  | Cn
  | L
  | St
  | O
  | Ou
  | C
  | Street
  | Dc
  | Uid
  | BusinessCategory
  | JurisdictionCountryName
  | SerialNumber
  | OrganizationIdentifier
  | OrganizationalUnitName
deriving DecidableEq

/-- Parse errors (`enum Error`). `Hex` stands for `Error::Hex(_)` with any
`hex::FromHexError` payload; `Utf8` stands for both `Error::Utf8(_)` and
`Error::FromUtf8(_)`. -/
inductive Error where
  | Hex
  | InvalidType (s : List Nat)
  | InvalidValue (ty : RdnType) (value : List Nat)
  | UnexpectedCharacter (c : Nat)
  | UnexpectedEof
  | UnsupportedMultiValueRdns
  | Utf8
deriving DecidableEq

/-- Value of a single hex digit byte, as accepted by the `hex` crate
(`0-9`, `a-f`, `A-F`). -/
def hexVal (c : Nat) : Option Nat :=
  if 48 ≤ c ∧ c ≤ 57 then some (c - 48)
  else if 97 ≤ c ∧ c ≤ 102 then some (c - 87)
  else if 65 ≤ c ∧ c ≤ 70 then some (c - 55)
  else none

/-- `hex::decode`: decode a whole string of hex digits into bytes. Odd length
or a non-hex digit yields the hex error (payloads are collapsed). -/
def hexDecode : List Nat → Except Error (List Nat)
  | [] => .ok []
  | [_] => .error .Hex
  | a :: b :: rest =>
    match hexVal a, hexVal b with
    | some x, some y => (hexDecode rest).map (fun l => (x * 16 + y) :: l)
    | _, _ => .error .Hex

/-- Lower-case hex digit character for a value `< 16` (`hex::encode` emits
lower-case). -/
def hexDigitChar (n : Nat) : Nat := if n < 10 then n + 48 else n + 87

/-- `hex::encode` of one byte: two lower-case hex digit characters. -/
def hexEncodeByte (b : Nat) : List Nat := [hexDigitChar (b / 16), hexDigitChar (b % 16)]

/-- `hex::encode`: lower-case hex of a byte string. -/
def hexEncode (bs : List Nat) : List Nat := (bs.map hexEncodeByte).flatten

/-- UTF-8 encoding of one Unicode scalar value. -/
def utf8EncodeChar (c : Nat) : List Nat :=
  if c < 0x80 then [c]
  else if c < 0x800 then [0xC0 + c / 64, 0x80 + c % 64]
  else if c < 0x10000 then [0xE0 + c / 4096, 0x80 + (c / 64) % 64, 0x80 + c % 64]
  else [0xF0 + c / 262144, 0x80 + (c / 4096) % 64, 0x80 + (c / 64) % 64, 0x80 + c % 64]

/-- UTF-8 encoding of a code-point string (what `str::bytes` iterates and what
`hex::encode(value)` hashes over in `to_of_string`). -/
def utf8Encode (cs : List Nat) : List Nat := (cs.map utf8EncodeChar).flatten

/-- Decode one UTF-8 scalar from a first byte `b` and the following bytes,
returning the scalar and the unconsumed remainder. Strict, as Rust's decoder:
rejects overlong forms, surrogates and out-of-range lead bytes. -/
def utf8DecodeOne (b : Nat) (bs : List Nat) : Option (Nat × List Nat) :=
  if b < 0x80 then some (b, bs)
  else if 0xC2 ≤ b ∧ b ≤ 0xDF then
    match bs with
    | b1 :: bs1 =>
      if 0x80 ≤ b1 ∧ b1 ≤ 0xBF then some ((b - 0xC0) * 64 + (b1 - 0x80), bs1)
      else none
    | [] => none
  else if 0xE0 ≤ b ∧ b ≤ 0xEF then
    match bs with
    | b1 :: b2 :: bs2 =>
      if (if b = 0xE0 then 0xA0 ≤ b1 ∧ b1 ≤ 0xBF
          else if b = 0xED then 0x80 ≤ b1 ∧ b1 ≤ 0x9F
          else 0x80 ≤ b1 ∧ b1 ≤ 0xBF) ∧ 0x80 ≤ b2 ∧ b2 ≤ 0xBF then
        some ((b - 0xE0) * 4096 + (b1 - 0x80) * 64 + (b2 - 0x80), bs2)
      else none
    | _ => none
  else if 0xF0 ≤ b ∧ b ≤ 0xF4 then
    match bs with
    | b1 :: b2 :: b3 :: bs3 =>
      if (if b = 0xF0 then 0x90 ≤ b1 ∧ b1 ≤ 0xBF
          else if b = 0xF4 then 0x80 ≤ b1 ∧ b1 ≤ 0x8F
          else 0x80 ≤ b1 ∧ b1 ≤ 0xBF) ∧ (0x80 ≤ b2 ∧ b2 ≤ 0xBF) ∧
          (0x80 ≤ b3 ∧ b3 ≤ 0xBF) then
        some ((b - 0xF0) * 262144 + (b1 - 0x80) * 4096 + (b2 - 0x80) * 64 + (b3 - 0x80), bs3)
      else none
    | _ => none
  else none

/-- Fuel-indexed UTF-8 decoding loop; each successful step consumes at least
one byte, so fuel equal to the input length is always sufficient (the `0`
fuel row on a non-empty list is unreachable from `utf8Decode`). -/
def utf8DecodeFuel : Nat → List Nat → Option (List Nat)
  | _, [] => some []
  | 0, _ :: _ => none
  | fuel + 1, b :: bs =>
    match utf8DecodeOne b bs with
    | some (c, rest) => (utf8DecodeFuel fuel rest).map (fun cs => c :: cs)
    | none => none

/-- Strict UTF-8 decoding (`str::from_utf8` / `String::from_utf8`): rejects
overlong forms, surrogates and out-of-range sequences, exactly as Rust does. -/
def utf8Decode (l : List Nat) : Option (List Nat) := utf8DecodeFuel l.length l

/-- A valid Unicode scalar value (Rust `char`): below the surrogate range or
between `0xE000` and `0x10FFFF`. -/
def isValidScalar (c : Nat) : Bool := c < 0xD800 ∨ (0xE000 ≤ c ∧ c < 0x110000)

/-- Rust `char::is_whitespace`: the Unicode `White_Space` code points. -/
def isWhitespace (c : Nat) : Bool :=
  c = 0x09 ∨ c = 0x0A ∨ c = 0x0B ∨ c = 0x0C ∨ c = 0x0D ∨ c = 0x20 ∨
  c = 0x85 ∨ c = 0xA0 ∨ c = 0x1680 ∨ (0x2000 ≤ c ∧ c ≤ 0x200A) ∨
  c = 0x2028 ∨ c = 0x2029 ∨ c = 0x202F ∨ c = 0x205F ∨ c = 0x3000

/-- Rust `char::is_control`: the Unicode `Cc` category. -/
def isControl (c : Nat) : Bool :=
  c ≤ 0x1F ∨ (0x7F ≤ c ∧ c ≤ 0x9F)

/-- Rust `str::trim` at the code-point level: strip leading and trailing
`char::is_whitespace` characters. -/
def trimList (cs : List Nat) : List Nat :=
  ((cs.dropWhile isWhitespace).reverse.dropWhile isWhitespace).reverse

/-- ASCII lower-casing of one code point (`u8::make_ascii_lowercase` /
`str::make_ascii_lowercase`). `RdnType::from_str` uses Rust's full
`str::to_lowercase`; the two agree on every input relevant to the registry
table, whose entries contain no character that is the Unicode lower-case image
of a non-ASCII character. -/
def asciiLowerChar (c : Nat) : Nat := if 65 ≤ c ∧ c ≤ 90 then c + 32 else c

/-- The fixed registry table of `impl FromStr for RdnType`, in source order:
each lower-cased short name or OID paired with its attribute type. -/
def rdnTypeTable : List (List Nat × RdnType) :=
  [(str "cn", .Cn), (str "2.5.4.3", .Cn),
   (str "l", .L), (str "2.5.4.7", .L),
   (str "st", .St), (str "2.5.4.8", .St),
   (str "o", .O), (str "2.5.4.10", .O),
   (str "ou", .Ou),
   (str "c", .C), (str "2.5.4.6", .C),
   (str "street", .Street), (str "2.5.4.9", .Street),
   (str "dc", .Dc), (str "0.9.2342.19200300.100.1.25", .Dc),
   (str "uid", .Uid), (str "0.9.2342.19200300.100.1.1", .Uid),
   (str "businesscategory", .BusinessCategory), (str "2.5.4.15", .BusinessCategory),
   (str "jurisdictioncountryname", .JurisdictionCountryName),
   (str "1.3.6.1.4.1.311.60.2.1.3", .JurisdictionCountryName),
   (str "serialnumber", .SerialNumber), (str "2.5.4.5", .SerialNumber),
   (str "organizationidentifier", .OrganizationIdentifier),
   (str "2.5.4.97", .OrganizationIdentifier),
   (str "organizationalunitname", .OrganizationalUnitName),
   (str "2.5.4.11", .OrganizationalUnitName)]

/-- Match the already-lower-cased input against the registry table. -/
def rdnTypeLookup (l : List Nat) : Option RdnType :=
  (rdnTypeTable.find? (fun e => decide (l = e.1))).map (fun e => e.2)

/-- `impl FromStr for RdnType`: lower-case the input and match it against the
fixed table of short names and OIDs; anything else is `InvalidType` carrying
the original input. -/
def RdnType.from_str (s : List Nat) : Except Error RdnType :=
  match rdnTypeLookup (s.map asciiLowerChar) with
  | some t => .ok t
  | Option.none => .error (.InvalidType s)

/-- `RdnType::as_of_str`: the serializer's output label. -/
def RdnType.as_of_str : RdnType → List Nat
  | .Cn => str "CN"
  | .L => str "L"
  | .St => str "ST"
  | .O => str "O"
  | .Ou => str "OU"
  | .C => str "C"
  | .Street => str "Street"
  | .Dc => str "DC"
  | .Uid => str "UID"
  | .BusinessCategory => str "2.5.4.15"
  | .JurisdictionCountryName => str "1.3.6.1.4.1.311.60.2.1.3"
  | .SerialNumber => str "2.5.4.5"
  | .OrganizationIdentifier => str "2.5.4.97"
  | .OrganizationalUnitName => str "2.5.4.11"

/-- `RdnType::of_encodes_as_hex`. -/
def RdnType.of_encodes_as_hex : RdnType → Bool
  | .BusinessCategory | .JurisdictionCountryName | .SerialNumber
  | .OrganizationIdentifier | .OrganizationalUnitName => true
  | _ => false

/-- `RdnType::is_comparison_case_sensitive`. -/
def RdnType.is_comparison_case_sensitive : RdnType → Bool
  | .Cn | .L | .St | .O | .Ou | .C | .JurisdictionCountryName
  | .OrganizationalUnitName => true
  | _ => false

/-- `struct RelativeDistinguishedName`: one typed key-value pair. -/
structure RelativeDistinguishedName where
  ty : RdnType
  value : List Nat
deriving DecidableEq

/-- `struct DistinguishedName`: an ordered sequence of RDNs. -/
structure DistinguishedName where
  rdns : List RelativeDistinguishedName
deriving DecidableEq

/-- Escaping of one value character in `to_of_string`: reserved symbols are
backslash-prefixed unconditionally, everything else is emitted verbatim. -/
def escapeChar (c : Nat) : List Nat :=
  if c ∈ ESCAPABLE_SYMBOLS then [92, c] else [c]

/-- The serializer's escaped rendering of a whole value. -/
def escapeValue (v : List Nat) : List Nat := (v.map escapeChar).flatten

/-- Serialization of one RDN inside `to_of_string`: label, `=`, then either
`#` + lower-case hex of the value's UTF-8 bytes (for hex-encoded types) or the
escaped literal value. -/
def RelativeDistinguishedName.toOf (r : RelativeDistinguishedName) : List Nat :=
  r.ty.as_of_str ++ [61] ++
    (if r.ty.of_encodes_as_hex then 35 :: hexEncode (utf8Encode r.value)
     else escapeValue r.value)

/-- Comma-joined tail of the serializer loop (the `i > 0` iterations). -/
def joinTail : List RelativeDistinguishedName → List Nat
  | [] => []
  | r :: rs => 44 :: (r.toOf ++ joinTail rs)

/-- The serializer loop body over the already-reversed RDN list. -/
def joinRdns : List RelativeDistinguishedName → List Nat
  | [] => []
  | r :: rs => r.toOf ++ joinTail rs

/-- `DistinguishedName::to_of_string`: iterate the RDNs in reverse storage
order, comma-joined. -/
def DistinguishedName.to_of_string (dn : DistinguishedName) : List Nat :=
  joinRdns dn.rdns.reverse

/-- `enum Escaping`: the escape-sequence sub-machine state. -/
inductive Escaping where
  | none
  | started
  | hex (previous : Nat)
deriving DecidableEq

/-- `Escaping::is_pending`. -/
def Escaping.is_pending : Escaping → Bool
  | .none => false
  | .started => true
  | .hex _ => true

/-- `Escaping::consume`: feed one byte to the escape sub-machine, returning the
optionally emitted byte together with the next state. The `Escaping::None`
case is unreachable in the parser (Rust panics there); it is modelled as a
no-op. -/
def Escaping.consume : Escaping → Nat → Except Error (Option Nat × Escaping)
  | .started, c =>
    if c ∈ ESCAPABLE_SYMBOLS then .ok (some c, .none)
    else .ok (Option.none, .hex c)
  | .hex previous, c =>
    match hexVal previous, hexVal c with
    | some x, some y => .ok (some (x * 16 + y), .none)
    | _, _ => .error .Hex
  | .none, _ => .ok (Option.none, .none)

/-- `enum ParseItem`: one byte of input, or end of input. -/
inductive ParseItem where
  | byte (b : Nat)
  | eof
deriving DecidableEq

/-- `ParseItem::is_eof`. -/
def ParseItem.is_eof : ParseItem → Bool
  | .byte _ => false
  | .eof => true

/-- The mutable local state of `DistinguishedName::from_str`'s loop. -/
structure ParseState where
  rdns : List RelativeDistinguishedName
  acc : List Nat
  escaping : Escaping
  value_is_hex : Bool
  ty : Option RdnType
deriving DecidableEq

/-- The `','`/EOF arm of the parser loop: decode and trim the accumulator,
check for the empty-value cases, then finish the current RDN (hex-decoding the
value when it was flagged as a hex-octet string). -/
def finalizeRdn (st : ParseState) (isEof : Bool) : Except Error ParseState :=
  match utf8Decode st.acc with
  | Option.none => .error .Utf8
  | some cs =>
    let value := trimList cs
    if value = [] then
      if isEof ∧ st.ty = Option.none then .ok st
      else .error (if isEof then .UnexpectedEof else .UnexpectedCharacter 44)
    else
      match st.ty with
      | Option.none =>
        .error (if isEof then .UnexpectedEof else .UnexpectedCharacter 44)
      | some t =>
        if st.value_is_hex then
          match hexDecode value with
          | .error e => .error e
          | .ok bytes =>
            match utf8Decode bytes with
            | Option.none => .error .Utf8
            | some v =>
              .ok { st with rdns := st.rdns ++ [⟨t, v⟩], acc := [],
                            ty := Option.none, value_is_hex := false }
        else
          .ok { st with rdns := st.rdns ++ [⟨t, value⟩], acc := [],
                        ty := Option.none, value_is_hex := false }

/-- One iteration of the `from_str` loop on one `ParseItem`. -/
def parseStep (st : ParseState) (c : ParseItem) : Except Error ParseState :=
  if st.escaping.is_pending then
    match c with
    | .eof => .error .UnexpectedEof
    | .byte b =>
      match st.escaping.consume b with
      | .error e => .error e
      | .ok (some x, esc) => .ok { st with acc := st.acc ++ [x], escaping := esc }
      | .ok (Option.none, esc) => .ok { st with escaping := esc }
  else
    match c with
    | .eof => finalizeRdn st true
    | .byte b =>
      if b = 44 then finalizeRdn st false
      else if b = 61 then
        if st.ty.isSome then .error (.UnexpectedCharacter 61)
        else
          match utf8Decode st.acc with
          | Option.none => .error .Utf8
          | some cs =>
            let tyStr := trimList cs
            if tyStr = [] then .error (.UnexpectedCharacter 61)
            else
              match RdnType.from_str tyStr with
              | .error e => .error e
              | .ok t => .ok { st with ty := some t, acc := [] }
      else if b = 92 then .ok { st with escaping := .started }
      else if b = 35 then
        .ok (if st.acc = [] then { st with value_is_hex := true }
             else { st with acc := st.acc ++ [35] })
      else if b = 43 then .error .UnsupportedMultiValueRdns
      else .ok { st with acc := st.acc ++ [b] }

/-- Run the parser loop over a list of items. -/
def runParse (st : ParseState) : List ParseItem → Except Error ParseState
  | [] => .ok st
  | c :: cs =>
    match parseStep st c with
    | .error e => .error e
    | .ok st' => runParse st' cs

/-- The initial state of the `from_str` loop. -/
def initState : ParseState := ⟨[], [], .none, false, Option.none⟩

/-- `impl FromStr for DistinguishedName`: run the loop over the input bytes
followed by `Eof`, then reverse the collected RDNs. -/
def DistinguishedName.from_str (s : List Nat) : Except Error DistinguishedName :=
  match runParse initState (s.map ParseItem.byte ++ [.eof]) with
  | .error e => .error e
  | .ok st => .ok ⟨st.rdns.reverse⟩

/-- The prohibited class of `RdnComparator::new`'s character filter. -/
def isProhibited (c : Nat) : Bool :=
  c = 0x340 ∨ c = 0x341 ∨ c = 0x200E ∨ c = 0x200F ∨
  (0x202A ≤ c ∧ c ≤ 0x202E) ∨ (0x206A ≤ c ∧ c ≤ 0x206F) ∨
  (0xE000 ≤ c ∧ c ≤ 0xF8FF) ∨ (0xF0000 ≤ c ∧ c ≤ 0xFFFFD) ∨
  (0x100000 ≤ c ∧ c ≤ 0x10FFFD) ∨ c = 0xFFFD

/-- The space-equivalent class of the character filter. -/
def isSpaceEquivalent (c : Nat) : Bool :=
  c = 0x09 ∨ c = 0x0A ∨ c = 0x0B ∨ c = 0x0C ∨ c = 0x0D ∨ c = 0x85 ∨
  isWhitespace c

/-- The ignored class of the character filter. -/
def isIgnored (c : Nat) : Bool :=
  c = 0xAD ∨ c = 0x1806 ∨ c = 0x34F ∨ (0x180B ≤ c ∧ c ≤ 0x180D) ∨
  (0xFE0F ≤ c ∧ c ≤ 0xFF00) ∨ c = 0xFFFC ∨ isControl c ∨ c = 0x200B

/-- The `filter_map` closure of `RdnComparator::new`, with its priority order:
prohibited aborts, space-equivalents map to a space, ignored characters vanish,
everything else is kept. -/
def classifyChar (c : Nat) : Option (Except Error Nat) :=
  if isProhibited c then some (.error (.UnexpectedCharacter c))
  else if isSpaceEquivalent c then some (.ok 32)
  else if isIgnored c then Option.none
  else some (.ok c)

/-- `collect::<Result<String>>` over the filtered characters: the first error
aborts. -/
def filterValue : List Nat → Except Error (List Nat)
  | [] => .ok []
  | c :: cs =>
    match classifyChar c with
    | Option.none => filterValue cs
    | some (.error e) => .error e
    | some (.ok x) => (filterValue cs).map (fun l => x :: l)

/-- First index at which `pat` occurs as a contiguous sublist (Rust
`str::find` with a literal pattern, at the code-point level). -/
def findSub (pat : List Nat) : List Nat → Option Nat
  | [] => if pat = [] then some 0 else Option.none
  | c :: cs =>
    if pat.isPrefixOf (c :: cs) then some 0
    else (findSub pat cs).map (fun i => i + 1)

/-- `struct RdnComparator`: a normalized RDN projection. -/
structure RdnComparator where
  ty : RdnType
  value : List Nat
deriving DecidableEq

/-- `RdnComparator::new`: filter the characters, ASCII-lower-case when the type
is case-insensitive, apply the `organizationIdentifier` "ofbbr-" marker rule,
then trim. -/
def RdnComparator.new (r : RelativeDistinguishedName) : Except Error RdnComparator :=
  match filterValue r.value with
  | .error e => .error e
  | .ok filtered =>
    let folded :=
      if r.ty.is_comparison_case_sensitive then filtered
      else filtered.map asciiLowerChar
    if r.ty = .OrganizationIdentifier then
      match findSub (str "ofbbr-") folded with
      | Option.none => .error (.InvalidValue .OrganizationIdentifier folded)
      | some i => .ok ⟨r.ty, trimList (folded.drop i)⟩
    else .ok ⟨r.ty, trimList folded⟩

/-- `struct DnComparator`. -/
structure DnComparator where
  rdns : List RdnComparator
deriving DecidableEq

/-- `dn.iter().map(RdnComparator::new).collect::<Result<_>>()`: the first
failing RDN aborts the collection. -/
def collectComparators : List RelativeDistinguishedName → Except Error (List RdnComparator)
  | [] => .ok []
  | r :: rs =>
    match RdnComparator.new r with
    | .error e => .error e
    | .ok c =>
      match collectComparators rs with
      | .error e => .error e
      | .ok cs => .ok (c :: cs)

/-- `DnComparator::new`. -/
def DnComparator.new (dn : DistinguishedName) : Except Error DnComparator :=
  match collectComparators dn.rdns with
  | .error e => .error e
  | .ok cs => .ok ⟨cs⟩

/-! ## Theorems -/

/-! ### UTF-8 encoding/decoding lemmas -/

set_option maxRecDepth 40000 in
theorem utf8DecodeOne_length (b : Nat) (bs : List Nat) (c : Nat) (rest : List Nat)
    (h : utf8DecodeOne b bs = some (c, rest)) : rest.length ≤ bs.length := by
  unfold utf8DecodeOne at h
  cases bs with
  | nil =>
    dsimp only at h
    split_ifs at h
    cases h
    simp only [List.length_cons, List.length_nil]
    omega
  | cons b1 bs' =>
    cases bs' with
    | nil =>
      dsimp only at h
      split_ifs at h <;>
          (cases h; simp only [List.length_cons, List.length_nil]; omega)
    | cons b2 bs'' =>
      cases bs'' with
      | nil =>
        dsimp only at h
        split_ifs at h <;>
          (cases h; simp only [List.length_cons, List.length_nil]; omega)
      | cons b3 bs3 =>
        dsimp only at h
        split_ifs at h <;>
          (cases h; simp only [List.length_cons, List.length_nil]; omega)

theorem utf8DecodeFuel_congr (f1 : Nat) (l : List Nat) (f2 : Nat)
    (h1 : l.length ≤ f1) (h2 : l.length ≤ f2) :
    utf8DecodeFuel f1 l = utf8DecodeFuel f2 l := by
  induction f1 generalizing l f2 with
  | zero =>
    cases l with
    | nil => cases f2 <;> rfl
    | cons b bs => simp at h1
  | succ f1' ih =>
    cases l with
    | nil => cases f2 <;> rfl
    | cons b bs =>
      cases f2 with
      | zero => simp at h2
      | succ f2' =>
        show (match utf8DecodeOne b bs with
          | some (c, rest) => (utf8DecodeFuel f1' rest).map (fun cs => c :: cs)
          | none => none) = (match utf8DecodeOne b bs with
          | some (c, rest) => (utf8DecodeFuel f2' rest).map (fun cs => c :: cs)
          | none => none)
        cases hd : utf8DecodeOne b bs with
        | none => rfl
        | some p =>
          obtain ⟨c, rest⟩ := p
          have hl := utf8DecodeOne_length b bs c rest hd
          simp only
          rw [ih rest f2' (by simp at h1; omega) (by simp at h2; omega)]

theorem utf8DecodeOne_encodeChar (c : Nat) (rest : List Nat) (hv : isValidScalar c = true) :
    ∃ b t, utf8EncodeChar c = b :: t ∧ utf8DecodeOne b (t ++ rest) = some (c, rest) := by
  have hv' : c < 0xD800 ∨ (0xE000 ≤ c ∧ c < 0x110000) := by
    simpa [isValidScalar] using hv
  have hB : 64 * (c / 64) + c % 64 = c := Nat.div_add_mod c 64
  have hBm : c % 64 < 64 := Nat.mod_lt _ (by norm_num)
  have e0 : c / 64 / 64 = c / 4096 := by rw [Nat.div_div_eq_div_mul]
  have hC : 64 * (c / 4096) + c / 64 % 64 = c / 64 := by
    have := Nat.div_add_mod (c / 64) 64
    rwa [e0] at this
  have hCm : c / 64 % 64 < 64 := Nat.mod_lt _ (by norm_num)
  have e1 : c / 4096 / 64 = c / 262144 := by rw [Nat.div_div_eq_div_mul]
  have hD : 64 * (c / 262144) + c / 4096 % 64 = c / 4096 := by
    have := Nat.div_add_mod (c / 4096) 64
    rwa [e1] at this
  have hDm : c / 4096 % 64 < 64 := Nat.mod_lt _ (by norm_num)
  by_cases h1 : c < 0x80
  · refine ⟨c, [], ?_, ?_⟩
    · unfold utf8EncodeChar; rw [if_pos h1]
    · unfold utf8DecodeOne; rw [if_pos h1]; rfl
  · by_cases h2 : c < 0x800
    · refine ⟨0xC0 + c / 64, [0x80 + c % 64], ?_, ?_⟩
      · unfold utf8EncodeChar; rw [if_neg h1, if_pos h2]
      · unfold utf8DecodeOne
        rw [if_neg (by omega), if_pos (by constructor <;> omega)]
        simp only [List.cons_append, List.nil_append]
        try dsimp only
        rw [if_pos (by constructor <;> omega)]
        have hval : (0xC0 + c / 64 - 0xC0) * 64 + (0x80 + c % 64 - 0x80) = c := by omega
        rw [hval]
    · by_cases h3 : c < 0x10000
      · refine ⟨0xE0 + c / 4096, [0x80 + c / 64 % 64, 0x80 + c % 64], ?_, ?_⟩
        · unfold utf8EncodeChar; rw [if_neg h1, if_neg h2, if_pos h3]
        · unfold utf8DecodeOne
          rw [if_neg (by omega), if_neg (by omega), if_pos (by constructor <;> omega)]
          simp only [List.cons_append, List.nil_append]
          try dsimp only
          rw [if_pos ?side]
          case side =>
            refine ⟨?_, by omega, by omega⟩
            split_ifs with hE0 hED
            · constructor <;> omega
            · rcases hv' with hlt | hge
              · constructor <;> omega
              · exfalso; omega
            · constructor <;> omega
          have hval : (0xE0 + c / 4096 - 0xE0) * 4096 + (0x80 + c / 64 % 64 - 0x80) * 64 +
              (0x80 + c % 64 - 0x80) = c := by omega
          rw [hval]
      · have h4 : c < 0x110000 := by rcases hv' with h | h <;> omega
        refine ⟨0xF0 + c / 262144,
          [0x80 + c / 4096 % 64, 0x80 + c / 64 % 64, 0x80 + c % 64], ?_, ?_⟩
        · unfold utf8EncodeChar; rw [if_neg h1, if_neg h2, if_neg h3]
        · unfold utf8DecodeOne
          rw [if_neg (by omega), if_neg (by omega), if_neg (by omega),
              if_pos (by constructor <;> omega)]
          simp only [List.cons_append, List.nil_append]
          try dsimp only
          rw [if_pos ?side2]
          case side2 =>
            refine ⟨?_, ⟨by omega, by omega⟩, by omega, by omega⟩
            split_ifs with hF0 hF4
            · constructor <;> omega
            · constructor <;> omega
            · constructor <;> omega
          have hval : (0xF0 + c / 262144 - 0xF0) * 262144 + (0x80 + c / 4096 % 64 - 0x80) * 4096 +
              (0x80 + c / 64 % 64 - 0x80) * 64 + (0x80 + c % 64 - 0x80) = c := by omega
          rw [hval]

theorem utf8Decode_encodeChar_append (c : Nat) (rest : List Nat) (hv : isValidScalar c = true) :
    utf8Decode (utf8EncodeChar c ++ rest) = (utf8Decode rest).map (fun cs => c :: cs) := by
  rcases utf8DecodeOne_encodeChar c rest hv with ⟨b, t, henc, hone⟩
  rw [henc]
  show utf8Decode (b :: (t ++ rest)) = _
  unfold utf8Decode
  show utf8DecodeFuel ((t ++ rest).length + 1) (b :: (t ++ rest)) = _
  rw [utf8DecodeFuel]
  rw [hone]
  simp only
  rw [utf8DecodeFuel_congr ((t ++ rest).length) rest rest.length (by simp) (le_refl rest.length)]

theorem utf8Encode_append (xs ys : List Nat) :
    utf8Encode (xs ++ ys) = utf8Encode xs ++ utf8Encode ys := by
  simp [utf8Encode]

theorem utf8Decode_utf8Encode (v : List Nat) (hv : ∀ c ∈ v, isValidScalar c = true) :
    utf8Decode (utf8Encode v) = some v := by
  induction v with
  | nil => rfl
  | cons c cs ih =>
    have : utf8Encode (c :: cs) = utf8EncodeChar c ++ utf8Encode cs := by
      simp [utf8Encode]
    rw [this, utf8Decode_encodeChar_append c _ (hv c (List.mem_cons_self c cs)),
        ih (fun x hx => hv x (List.mem_cons_of_mem c hx))]
    rfl

theorem utf8Decode_ascii (bs : List Nat) (h : ∀ b ∈ bs, b < 0x80) :
    utf8Decode bs = some bs := by
  induction bs with
  | nil => rfl
  | cons b bs' ih =>
    have hb : b < 0x80 := h b (List.mem_cons_self b bs')
    have henc : utf8EncodeChar b = [b] := by
      unfold utf8EncodeChar; rw [if_pos hb]
    have := utf8Decode_encodeChar_append b bs' (by simp [isValidScalar]; omega)
    rw [henc] at this
    simp only [List.cons_append, List.nil_append] at this
    rw [this, ih (fun x hx => h x (List.mem_cons_of_mem b hx))]
    rfl


/-- A value containing a prohibited character makes the character filter fail
with `UnexpectedCharacter` carrying a prohibited character of the value. -/
theorem filterValue_error_of_prohibited (v : List Nat) (h : ∃ c ∈ v, isProhibited c = true) :
    ∃ c, c ∈ v ∧ isProhibited c = true ∧
      filterValue v = .error (.UnexpectedCharacter c) := by
  induction v with
  | nil => rcases h with ⟨c, hc, _⟩; cases hc
  | cons a as ih =>
    by_cases ha : isProhibited a = true
    · exact ⟨a, List.mem_cons_self a as, ha, by simp [filterValue, classifyChar, ha]⟩
    · rcases h with ⟨c, hc, hcp⟩
      rcases List.mem_cons.mp hc with rfl | hc'
      · exact absurd hcp ha
      · rcases ih ⟨c, hc', hcp⟩ with ⟨c', hmem, hp, herr⟩
        refine ⟨c', List.mem_cons_of_mem a hmem, hp, ?_⟩
        unfold filterValue classifyChar
        rw [if_neg (by simp [ha])]
        by_cases hsp : isSpaceEquivalent a = true
        · simp [hsp, herr, Except.map]
        · by_cases hig : isIgnored a = true
          · simp [hsp, hig, herr]
          · simp [hsp, hig, herr, Except.map]

/-- If any RDN's comparator construction fails, collecting the comparators of
a list containing it fails as well. -/
theorem collectComparators_error (l : List RelativeDistinguishedName)
    (r : RelativeDistinguishedName) (hr : r ∈ l) (e : Error)
    (he : RdnComparator.new r = .error e) :
    ∃ e', collectComparators l = .error e' := by
  induction l with
  | nil => cases hr
  | cons a as ih =>
    rcases List.mem_cons.mp hr with rfl | h'
    · exact ⟨e, by simp [collectComparators, he]⟩
    · cases hn : RdnComparator.new a with
      | error e2 => exact ⟨e2, by simp [collectComparators, hn]⟩
      | ok c =>
        rcases ih h' with ⟨e', he'⟩
        exact ⟨e', by simp [collectComparators, hn, he']⟩

/-- C7: for every RDN whose value contains at least one prohibited character,
building its comparator fails with `UnexpectedCharacter` carrying a prohibited
character of the value, regardless of the attribute type, and the comparator
of any DN owning that RDN fails as well. -/
theorem prohibited_characters (ty : RdnType) (v : List Nat)
    (h : ∃ c ∈ v, isProhibited c = true) :
    (∃ c, c ∈ v ∧ isProhibited c = true ∧
      RdnComparator.new ⟨ty, v⟩ = .error (.UnexpectedCharacter c)) ∧
    (∀ dn : DistinguishedName, (⟨ty, v⟩ : RelativeDistinguishedName) ∈ dn.rdns →
      ∃ e, DnComparator.new dn = .error e) := by
  rcases filterValue_error_of_prohibited v h with ⟨c, hmem, hp, herr⟩
  have hnew : RdnComparator.new ⟨ty, v⟩ = .error (.UnexpectedCharacter c) := by
    simp [RdnComparator.new, herr]
  refine ⟨⟨c, hmem, hp, hnew⟩, fun dn hdn => ?_⟩
  rcases collectComparators_error dn.rdns _ hdn _ hnew with ⟨e', he'⟩
  exact ⟨e', by simp [DnComparator.new, he']⟩

/-- C7 witness: the replacement character U+FFFD in a common-name value. -/
theorem prohibited_characters_witness :
    (∃ c, c ∈ [0xFFFD] ∧ isProhibited c = true ∧
      RdnComparator.new ⟨.Cn, [0xFFFD]⟩ = .error (.UnexpectedCharacter c)) ∧
    (∀ dn : DistinguishedName, (⟨.Cn, [0xFFFD]⟩ : RelativeDistinguishedName) ∈ dn.rdns →
      ∃ e, DnComparator.new dn = .error e) :=
  prohibited_characters .Cn [0xFFFD] ⟨0xFFFD, by decide, by decide⟩

/-- `findSub pat l = some i` means `pat` occurs at `i` and at no earlier
index. -/
theorem findSub_some (pat l : List Nat) (i : Nat) (h : findSub pat l = some i) :
    pat.isPrefixOf (l.drop i) = true ∧
    ∀ j, j < i → pat.isPrefixOf (l.drop j) = false := by
  induction l generalizing i with
  | nil =>
    unfold findSub at h
    by_cases hp : pat = []
    · rw [if_pos hp] at h
      cases h
      subst hp
      exact ⟨rfl, fun j hj => absurd hj (Nat.not_lt_zero j)⟩
    · rw [if_neg hp] at h
      cases h
  | cons c cs ih =>
    unfold findSub at h
    by_cases hp : pat.isPrefixOf (c :: cs) = true
    · rw [if_pos hp] at h
      cases h
      exact ⟨hp, fun j hj => absurd hj (Nat.not_lt_zero j)⟩
    · rw [if_neg hp] at h
      cases hf : findSub pat cs with
      | none => rw [hf] at h; cases h
      | some i' =>
        rw [hf] at h
        cases h
        rcases ih i' hf with ⟨h1, h2⟩
        refine ⟨h1, fun j hj => ?_⟩
        cases j with
        | zero => exact Bool.eq_false_iff.mpr hp
        | succ j' => exact h2 j' (Nat.lt_of_succ_lt_succ hj)

/-- `findSub pat l = none` means `pat` occurs nowhere in `l`. -/
theorem findSub_none (pat l : List Nat) (h : findSub pat l = Option.none) :
    ∀ j, pat.isPrefixOf (l.drop j) = false := by
  induction l with
  | nil =>
    intro j
    unfold findSub at h
    by_cases hp : pat = []
    · rw [if_pos hp] at h; cases h
    · rw [if_neg hp] at h
      cases pat with
      | nil => exact absurd rfl hp
      | cons p ps => simp [List.isPrefixOf]
  | cons c cs ih =>
    intro j
    unfold findSub at h
    by_cases hp : pat.isPrefixOf (c :: cs) = true
    · rw [if_pos hp] at h; cases h
    · rw [if_neg hp] at h
      cases hf : findSub pat cs with
      | none =>
        cases j with
        | zero => exact Bool.eq_false_iff.mpr hp
        | succ j' => exact ih hf j'
      | some i' => rw [hf] at h; cases h

/-- C8: for an organization-identifier RDN whose value filters successfully,
the comparator keeps the suffix of the ASCII-folded value starting at the
first occurrence of the marker `"ofbbr-"` (trimmed); if the folded value has
no occurrence of the marker, construction fails with `InvalidValue` carrying
the organization-identifier type and the folded value. -/
theorem org_identifier_marker (v fv : List Nat) (hf : filterValue v = .ok fv) :
    ((∃ i, (str "ofbbr-").isPrefixOf ((fv.map asciiLowerChar).drop i) = true) →
      ∃ i, (str "ofbbr-").isPrefixOf ((fv.map asciiLowerChar).drop i) = true ∧
        (∀ j, j < i → (str "ofbbr-").isPrefixOf ((fv.map asciiLowerChar).drop j) = false) ∧
        RdnComparator.new ⟨.OrganizationIdentifier, v⟩ =
          .ok ⟨.OrganizationIdentifier, trimList ((fv.map asciiLowerChar).drop i)⟩) ∧
    ((∀ i, (str "ofbbr-").isPrefixOf ((fv.map asciiLowerChar).drop i) = false) →
      RdnComparator.new ⟨.OrganizationIdentifier, v⟩ =
        .error (.InvalidValue .OrganizationIdentifier (fv.map asciiLowerChar))) := by
  have hcase : RdnType.is_comparison_case_sensitive .OrganizationIdentifier = false := rfl
  cases hsub : findSub (str "ofbbr-") (fv.map asciiLowerChar) with
  | none =>
    have hnone := findSub_none _ _ hsub
    refine ⟨fun ⟨i, hi⟩ => absurd hi (by simp [hnone i]), fun _ => ?_⟩
    simp [RdnComparator.new, hf, hcase, hsub]
  | some i =>
    rcases findSub_some _ _ i hsub with ⟨h1, h2⟩
    refine ⟨fun _ => ⟨i, h1, h2, ?_⟩, fun hall => absurd h1 (by simp [hall i])⟩
    simp [RdnComparator.new, hf, hcase, hsub]

/-- C8 witness: `"xOFBBR-Z"` keeps `"ofbbr-z"`; the instantiated theorem also
covers the no-marker error branch. -/
theorem org_identifier_marker_witness :
    ((∃ i, (str "ofbbr-").isPrefixOf (((str "xOFBBR-Z").map asciiLowerChar).drop i) = true) →
      ∃ i, (str "ofbbr-").isPrefixOf (((str "xOFBBR-Z").map asciiLowerChar).drop i) = true ∧
        (∀ j, j < i →
          (str "ofbbr-").isPrefixOf (((str "xOFBBR-Z").map asciiLowerChar).drop j) = false) ∧
        RdnComparator.new ⟨.OrganizationIdentifier, str "xOFBBR-Z"⟩ =
          .ok ⟨.OrganizationIdentifier,
               trimList (((str "xOFBBR-Z").map asciiLowerChar).drop i)⟩) ∧
    ((∀ i, (str "ofbbr-").isPrefixOf (((str "xOFBBR-Z").map asciiLowerChar).drop i) = false) →
      RdnComparator.new ⟨.OrganizationIdentifier, str "xOFBBR-Z"⟩ =
        .error (.InvalidValue .OrganizationIdentifier ((str "xOFBBR-Z").map asciiLowerChar))) :=
  org_identifier_marker (str "xOFBBR-Z") (str "xOFBBR-Z") (by decide)

/-- C2 counterexample: `"A"` is not a registry attribute type, so parsing
`"A=1,B=2"` does not succeed — it fails with `InvalidType("A")`. -/
theorem order_inversion_counterexample :
    DistinguishedName.from_str (str "A=1,B=2") = .error (.InvalidType (str "A")) := by
  decide

/-- C2 (amended): with registry types, parsing `"L=1,C=2"` succeeds and stores
the RDNs in the reverse of their textual order (`[(C,"2"),(L,"1")]`); the
serializer re-reverses them, so re-serializing yields back `"L=1,C=2"` — the
inversion is between storage order and textual order, not between the input
and output strings. -/
theorem order_inversion_amended :
    DistinguishedName.from_str (str "L=1,C=2") =
      .ok ⟨[⟨.C, str "2"⟩, ⟨.L, str "1"⟩]⟩ ∧
    DistinguishedName.to_of_string ⟨[⟨.C, str "2"⟩, ⟨.L, str "1"⟩]⟩ = str "L=1,C=2" := by
  decide

/-- C4 counterexample: the street type's output label is `"Street"`, not the
upper-case short name `"STREET"`. -/
theorem labels_counterexample :
    RdnType.as_of_str .Street = str "Street" ∧
    RdnType.as_of_str .Street ≠ str "STREET" := by
  decide

/-- C4 (amended): the serializer's output label is the upper-case short name
for eight of the nine common types, the capitalized `"Street"` (not
`"STREET"`) for the street type, and the dotted OID for the five exotic
types. -/
theorem labels_amended :
    RdnType.as_of_str .Cn = str "CN" ∧
    RdnType.as_of_str .L = str "L" ∧
    RdnType.as_of_str .St = str "ST" ∧
    RdnType.as_of_str .O = str "O" ∧
    RdnType.as_of_str .Ou = str "OU" ∧
    RdnType.as_of_str .C = str "C" ∧
    RdnType.as_of_str .Street = str "Street" ∧
    RdnType.as_of_str .Dc = str "DC" ∧
    RdnType.as_of_str .Uid = str "UID" ∧
    RdnType.as_of_str .BusinessCategory = str "2.5.4.15" ∧
    RdnType.as_of_str .JurisdictionCountryName = str "1.3.6.1.4.1.311.60.2.1.3" ∧
    RdnType.as_of_str .SerialNumber = str "2.5.4.5" ∧
    RdnType.as_of_str .OrganizationIdentifier = str "2.5.4.97" ∧
    RdnType.as_of_str .OrganizationalUnitName = str "2.5.4.11" := by
  decide

/-- C9: value finalization trims the decoded accumulator, so an escaped
leading space does not survive parsing (`"CN=\ a"` yields `(Cn, "a")`),
whereas the decoded bytes of a `#` hex-octet value are never trimmed
(`"CN=#2061"` yields `(Cn, " a")` with the leading space preserved). -/
theorem finalization_trimming :
    DistinguishedName.from_str (str "CN=\\ a") = .ok ⟨[⟨.Cn, str "a"⟩]⟩ ∧
    DistinguishedName.from_str (str "CN=#2061") = .ok ⟨[⟨.Cn, str " a"⟩]⟩ := by
  decide

/-- C10: outside an escape, an unescaped `#` switches the RDN to hex-octet
mode exactly when the accumulator is empty (even before the attribute type:
`"#CN=61"` parses to `(Cn, "a")`), and is kept as a literal character when the
accumulator is non-empty (`"CN=a#b"` parses to `(Cn, "a#b")`). -/
theorem octothorpe_accumulator :
    (∀ st : ParseState, st.escaping = .none →
      parseStep st (.byte 35) =
        .ok (if st.acc = [] then { st with value_is_hex := true }
             else { st with acc := st.acc ++ [35] })) ∧
    DistinguishedName.from_str (str "#CN=61") = .ok ⟨[⟨.Cn, str "a"⟩]⟩ ∧
    DistinguishedName.from_str (str "CN=a#b") = .ok ⟨[⟨.Cn, str "a#b"⟩]⟩ := by
  refine ⟨fun st h => ?_, by decide, by decide⟩
  simp [parseStep, h, Escaping.is_pending]

/-- C10 witness: the general `#` step applied at the initial state. -/
theorem octothorpe_accumulator_witness :
    parseStep initState (.byte 35) =
      .ok (if initState.acc = [] then { initState with value_is_hex := true }
           else { initState with acc := initState.acc ++ [35] }) :=
  octothorpe_accumulator.1 initState rfl

/-- C3 counterexample: the code never strips an `"oid."` prefix — `"oid.cn"`
fails with `InvalidType("oid.cn")` even though `"cn"` resolves. -/
theorem type_resolution_counterexample :
    RdnType.from_str (str "cn") = .ok .Cn ∧
    RdnType.from_str (str "oid.cn") = .error (.InvalidType (str "oid.cn")) := by
  decide

/-- C3 (amended): attribute-type resolution is case-insensitive — every
ASCII-case variant of a resolvable name resolves to the same type — but no
`"oid."` prefix is stripped: every `"oid."`-prefixed input fails with
`InvalidType` carrying the original text, and in general any input that does
not resolve fails with `InvalidType` carrying the original input text. -/
theorem type_resolution_amended :
    (∀ m n : List Nat, ∀ t : RdnType, RdnType.from_str n = .ok t →
      m.map asciiLowerChar = n.map asciiLowerChar → RdnType.from_str m = .ok t) ∧
    (∀ s : List Nat,
      RdnType.from_str (str "oid." ++ s) = .error (.InvalidType (str "oid." ++ s))) ∧
    (∀ s : List Nat, (∃ t, RdnType.from_str s = .ok t) ∨
      RdnType.from_str s = .error (.InvalidType s)) := by
  refine ⟨fun m n t hn hmn => ?_, fun s => ?_, fun s => ?_⟩
  · unfold RdnType.from_str at hn ⊢
    rw [hmn]
    cases h : rdnTypeLookup (n.map asciiLowerChar) <;> rw [h] at hn <;> simp_all
  · have h : (str "oid." ++ s).map asciiLowerChar =
        111 :: 105 :: 100 :: 46 :: s.map asciiLowerChar := by
      simp [str, asciiLowerChar]
    unfold RdnType.from_str
    rw [h]
    have hl : rdnTypeLookup (111 :: 105 :: 100 :: 46 :: s.map asciiLowerChar) =
        Option.none := by
      simp [rdnTypeLookup, rdnTypeTable, str]
    rw [hl]
  · unfold RdnType.from_str
    cases rdnTypeLookup (s.map asciiLowerChar)
    · exact .inr rfl
    · exact .inl ⟨_, rfl⟩

/-- C3 witness: case-insensitivity at `"CN"`/`"cn"` and the `"oid."` behavior
at `"oid.uid"`. -/
theorem type_resolution_witness :
    RdnType.from_str (str "CN") = .ok .Cn ∧
    RdnType.from_str (str "oid." ++ str "uid") =
      .error (.InvalidType (str "oid." ++ str "uid")) :=
  ⟨type_resolution_amended.1 (str "CN") (str "cn") .Cn (by decide) (by decide),
   type_resolution_amended.2.1 (str "uid")⟩

theorem parseStep_literal (rdns : List RelativeDistinguishedName) (acc : List Nat)
    (hx : Bool) (ty : Option RdnType) (b : Nat)
    (hb : b ≠ 44 ∧ b ≠ 61 ∧ b ≠ 92 ∧ b ≠ 35 ∧ b ≠ 43) :
    parseStep ⟨rdns, acc, .none, hx, ty⟩ (.byte b) =
      .ok ⟨rdns, acc ++ [b], .none, hx, ty⟩ := by
  obtain ⟨h1, h2, h3, h4, h5⟩ := hb
  simp [parseStep, Escaping.is_pending, h1, h2, h3, h4, h5]

theorem runParse_literal_run (bs : List Nat)
    (hb : ∀ b ∈ bs, b ≠ 44 ∧ b ≠ 61 ∧ b ≠ 92 ∧ b ≠ 35 ∧ b ≠ 43)
    (rdns : List RelativeDistinguishedName) (acc : List Nat) (hx : Bool)
    (ty : Option RdnType) (rest : List ParseItem) :
    runParse ⟨rdns, acc, .none, hx, ty⟩ (bs.map .byte ++ rest) =
      runParse ⟨rdns, acc ++ bs, .none, hx, ty⟩ rest := by
  induction bs generalizing acc with
  | nil => simp
  | cons b bs' ih =>
    simp only [List.map_cons, List.cons_append]
    rw [runParse, parseStep_literal rdns acc hx ty b (hb b (List.mem_cons_self b bs'))]
    simp only
    rw [ih (fun x hxm => hb x (List.mem_cons_of_mem b hxm)) (acc ++ [b])]
    simp

theorem utf8EncodeChar_high (c : Nat) (h : 0x80 ≤ c) :
    ∀ b ∈ utf8EncodeChar c, 0x80 ≤ b := by
  intro b hb
  unfold utf8EncodeChar at hb
  split_ifs at hb <;> simp at hb <;> rcases hb with rfl | rfl | rfl | rfl <;> omega

theorem utf8EncodeChar_lt256 (c : Nat) (hv : isValidScalar c = true) :
    ∀ b ∈ utf8EncodeChar c, b < 256 := by
  intro b hb
  have hv' : c < 0xD800 ∨ (0xE000 ≤ c ∧ c < 0x110000) := by
    simpa [isValidScalar] using hv
  unfold utf8EncodeChar at hb
  split_ifs at hb with h1 h2 h3 <;> simp at hb
  · omega
  · have d1 : c / 64 < 32 := Nat.div_lt_of_lt_mul (by omega)
    have d2 : c % 64 < 64 := Nat.mod_lt _ (by norm_num)
    rcases hb with rfl | rfl <;> omega
  · have d1 : c / 4096 < 16 := Nat.div_lt_of_lt_mul (by omega)
    have d2 : c / 64 % 64 < 64 := Nat.mod_lt _ (by norm_num)
    have d3 : c % 64 < 64 := Nat.mod_lt _ (by norm_num)
    rcases hb with rfl | rfl | rfl <;> omega
  · have h4 : c < 0x110000 := by omega
    have d1 : c / 262144 < 5 := Nat.div_lt_of_lt_mul (by omega)
    have d2 : c / 4096 % 64 < 64 := Nat.mod_lt _ (by norm_num)
    have d3 : c / 64 % 64 < 64 := Nat.mod_lt _ (by norm_num)
    have d4 : c % 64 < 64 := Nat.mod_lt _ (by norm_num)
    rcases hb with rfl | rfl | rfl | rfl <;> omega

theorem utf8EncodeChar_ne_nil (c : Nat) : utf8EncodeChar c ≠ [] := by
  unfold utf8EncodeChar
  split_ifs <;> simp

theorem utf8Encode_ascii (l : List Nat) (h : ∀ b ∈ l, b < 0x80) :
    utf8Encode l = l := by
  induction l with
  | nil => rfl
  | cons b bs ih =>
    have hb : b < 0x80 := h b (List.mem_cons_self b bs)
    have henc : utf8EncodeChar b = [b] := by
      unfold utf8EncodeChar; rw [if_pos hb]
    simp only [utf8Encode, List.map_cons, List.flatten_cons, henc]
    have := ih (fun x hx => h x (List.mem_cons_of_mem b hx))
    simp only [utf8Encode] at this
    rw [this]
    rfl

theorem runParse_escaped_char (c : Nat) (hv : isValidScalar c = true)
    (rdns : List RelativeDistinguishedName) (acc : List Nat) (hx : Bool)
    (ty : Option RdnType) (rest : List ParseItem) :
    runParse ⟨rdns, acc, .none, hx, ty⟩ ((utf8Encode (escapeChar c)).map .byte ++ rest) =
      runParse ⟨rdns, acc ++ utf8EncodeChar c, .none, hx, ty⟩ rest := by
  by_cases hesc : c ∈ ESCAPABLE_SYMBOLS
  · have hc : c < 0x80 := by
      simp [ESCAPABLE_SYMBOLS] at hesc
      rcases hesc with rfl | rfl | rfl | rfl | rfl | rfl | rfl | rfl | rfl | rfl <;> norm_num
    have hcenc : utf8EncodeChar c = [c] := by
      unfold utf8EncodeChar; rw [if_pos hc]
    have henc : utf8Encode (escapeChar c) = [92, c] := by
      simp [escapeChar, hesc, utf8Encode]
      rw [show utf8EncodeChar 92 = [92] by decide, hcenc]
      rfl
    rw [henc]
    simp only [List.map_cons, List.map_nil, List.cons_append, List.nil_append]
    rw [runParse]
    rw [show parseStep ⟨rdns, acc, .none, hx, ty⟩ (.byte 92) =
      .ok ⟨rdns, acc, .started, hx, ty⟩ by simp [parseStep, Escaping.is_pending]]
    simp only
    rw [runParse]
    rw [show parseStep ⟨rdns, acc, .started, hx, ty⟩ (.byte c) =
      .ok ⟨rdns, acc ++ [c], .none, hx, ty⟩ by
        simp [parseStep, Escaping.is_pending, Escaping.consume, hesc]]
    simp only
    rw [hcenc]
  · have hns : c ≠ 44 ∧ c ≠ 61 ∧ c ≠ 92 ∧ c ≠ 35 ∧ c ≠ 43 := by
      simp [ESCAPABLE_SYMBOLS] at hesc
      refine ⟨?_, ?_, ?_, ?_, ?_⟩ <;> omega
    have henc : utf8Encode (escapeChar c) = utf8EncodeChar c := by
      simp [escapeChar, hesc, utf8Encode]
    rw [henc]
    by_cases hc : c < 0x80
    · have hcenc : utf8EncodeChar c = [c] := by
        unfold utf8EncodeChar; rw [if_pos hc]
      rw [hcenc]
      exact runParse_literal_run [c] (by simpa using hns) rdns acc hx ty rest
    · exact runParse_literal_run (utf8EncodeChar c)
        (fun b hb => by
          have := utf8EncodeChar_high c (by omega) b hb
          refine ⟨?_, ?_, ?_, ?_, ?_⟩ <;> omega)
        rdns acc hx ty rest

theorem runParse_escaped_value (v : List Nat) (hv : ∀ c ∈ v, isValidScalar c = true)
    (rdns : List RelativeDistinguishedName) (acc : List Nat) (hx : Bool)
    (ty : Option RdnType) (rest : List ParseItem) :
    runParse ⟨rdns, acc, .none, hx, ty⟩ ((utf8Encode (escapeValue v)).map .byte ++ rest) =
      runParse ⟨rdns, acc ++ utf8Encode v, .none, hx, ty⟩ rest := by
  induction v generalizing acc with
  | nil => simp [escapeValue, utf8Encode]
  | cons c v' ih =>
    have hsplit : escapeValue (c :: v') = escapeChar c ++ escapeValue v' := by
      simp [escapeValue]
    rw [hsplit, utf8Encode_append]
    simp only [List.map_append, List.append_assoc]
    rw [runParse_escaped_char c (hv c (List.mem_cons_self c v')) rdns acc hx ty]
    rw [ih (fun x hx' => hv x (List.mem_cons_of_mem c hx')) (acc ++ utf8EncodeChar c)]
    have : acc ++ utf8EncodeChar c ++ utf8Encode v' = acc ++ utf8Encode (c :: v') := by
      simp [utf8Encode]
    rw [this]



theorem hexVal_hexDigitChar (n : Nat) (h : n < 16) : hexVal (hexDigitChar n) = some n := by
  unfold hexVal hexDigitChar
  split_ifs <;> first | (rw [Option.some.injEq]; omega) | (exfalso; omega)

theorem hexDigitChar_range (n : Nat) (h : n < 16) :
    (48 ≤ hexDigitChar n ∧ hexDigitChar n ≤ 57) ∨
    (97 ≤ hexDigitChar n ∧ hexDigitChar n ≤ 102) := by
  unfold hexDigitChar
  split_ifs <;> [left; right] <;> omega

theorem hexEncode_cons (b : Nat) (bs : List Nat) :
    hexEncode (b :: bs) = hexDigitChar (b / 16) :: hexDigitChar (b % 16) :: hexEncode bs := by
  simp [hexEncode, hexEncodeByte]

theorem hexDecode_hexEncode (bs : List Nat) (h : ∀ b ∈ bs, b < 256) :
    hexDecode (hexEncode bs) = .ok bs := by
  induction bs with
  | nil => rfl
  | cons b bs' ih =>
    have hb : b < 256 := h b (List.mem_cons_self b bs')
    rw [hexEncode_cons, hexDecode]
    rw [hexVal_hexDigitChar (b / 16) (Nat.div_lt_of_lt_mul (by omega)),
        hexVal_hexDigitChar (b % 16) (Nat.mod_lt _ (by norm_num))]
    simp only
    rw [ih (fun x hx => h x (List.mem_cons_of_mem b hx))]
    have : b / 16 * 16 + b % 16 = b := by
      have := Nat.div_add_mod b 16
      omega
    rw [this]
    rfl

theorem hexEncode_range (bs : List Nat) (h : ∀ b ∈ bs, b < 256) :
    ∀ x ∈ hexEncode bs, (48 ≤ x ∧ x ≤ 57) ∨ (97 ≤ x ∧ x ≤ 102) := by
  induction bs with
  | nil => intro x hx; cases hx
  | cons b bs' ih =>
    intro x hx
    have hb : b < 256 := h b (List.mem_cons_self b bs')
    rw [hexEncode_cons] at hx
    rcases List.mem_cons.mp hx with rfl | hx' 
    · exact hexDigitChar_range (b / 16) (Nat.div_lt_of_lt_mul (by omega))
    · rcases List.mem_cons.mp hx' with rfl | hx''
      · exact hexDigitChar_range (b % 16) (Nat.mod_lt _ (by norm_num))
      · exact ih (fun y hy => h y (List.mem_cons_of_mem b hy)) x hx''

theorem hexEncode_ne_nil (bs : List Nat) (h : bs ≠ []) : hexEncode bs ≠ [] := by
  cases bs with
  | nil => exact absurd rfl h
  | cons b bs' => rw [hexEncode_cons]; simp

theorem utf8Encode_ne_nil (v : List Nat) (h : v ≠ []) : utf8Encode v ≠ [] := by
  cases v with
  | nil => exact absurd rfl h
  | cons c cs =>
    simp only [utf8Encode, List.map_cons, List.flatten_cons]
    intro habs
    exact utf8EncodeChar_ne_nil c (List.append_eq_nil.mp habs).1

theorem dropWhile_eq_self_of (p : Nat → Bool) (l : List Nat)
    (h : ∀ x ∈ l, p x = false) : l.dropWhile p = l := by
  cases l with
  | nil => rfl
  | cons x xs =>
    rw [List.dropWhile_cons]
    rw [h x (List.mem_cons_self x xs)]
    simp

theorem trimList_eq_self (l : List Nat) (h : ∀ x ∈ l, isWhitespace x = false) :
    trimList l = l := by
  unfold trimList
  rw [dropWhile_eq_self_of _ l h,
      dropWhile_eq_self_of _ l.reverse (fun x hx => h x (List.mem_reverse.mp hx))]
  simp

theorem label_facts (t : RdnType) :
    utf8Encode t.as_of_str = t.as_of_str ∧
    (∀ b ∈ t.as_of_str, b ≠ 44 ∧ b ≠ 61 ∧ b ≠ 92 ∧ b ≠ 35 ∧ b ≠ 43) ∧
    (∀ b ∈ t.as_of_str, b < 0x80) ∧
    trimList t.as_of_str = t.as_of_str ∧
    t.as_of_str ≠ [] ∧
    RdnType.from_str t.as_of_str = .ok t := by
  cases t <;> decide

theorem parseStep_label_equals (rdns : List RelativeDistinguishedName) (hx : Bool)
    (t : RdnType) :
    parseStep ⟨rdns, t.as_of_str, .none, hx, Option.none⟩ (.byte 61) =
      .ok ⟨rdns, [], .none, hx, some t⟩ := by
  obtain ⟨henc, hspec, hascii, htrim, hne, hres⟩ := label_facts t
  simp [parseStep, Escaping.is_pending, utf8Decode_ascii _ hascii, htrim, hne, hres]

theorem parseStep_comma (st : ParseState) (h : st.escaping = .none) :
    parseStep st (.byte 44) = finalizeRdn st false := by
  unfold parseStep
  rw [h]
  simp [Escaping.is_pending]

theorem parseStep_eof (st : ParseState) (h : st.escaping = .none) :
    parseStep st .eof = finalizeRdn st true := by
  unfold parseStep
  rw [h]
  simp [Escaping.is_pending]



theorem utf8Encode_lt256 (v : List Nat) (hv : ∀ c ∈ v, isValidScalar c = true) :
    ∀ b ∈ utf8Encode v, b < 256 := by
  intro b hb
  simp only [utf8Encode, List.mem_flatten, List.mem_map] at hb
  obtain ⟨l, ⟨c, hc, rfl⟩, hbl⟩ := hb
  exact utf8EncodeChar_lt256 c (hv c hc) b hbl

theorem finalizeRdn_push (rdns : List RelativeDistinguishedName) (t : RdnType) (v : List Nat)
    (isEof : Bool) (hv : ∀ c ∈ v, isValidScalar c = true) (hne : v ≠ [])
    (htrim : trimList v = v) :
    finalizeRdn ⟨rdns, utf8Encode v, .none, false, some t⟩ isEof =
      .ok ⟨rdns ++ [⟨t, v⟩], [], .none, false, Option.none⟩ := by
  simp [finalizeRdn, utf8Decode_utf8Encode v hv, htrim, hne]

theorem finalizeRdn_push_hex (rdns : List RelativeDistinguishedName) (t : RdnType)
    (v : List Nat) (isEof : Bool) (hv : ∀ c ∈ v, isValidScalar c = true) (hne : v ≠ []) :
    finalizeRdn ⟨rdns, hexEncode (utf8Encode v), .none, true, some t⟩ isEof =
      .ok ⟨rdns ++ [⟨t, v⟩], [], .none, false, Option.none⟩ := by
  have hb : ∀ b ∈ utf8Encode v, b < 256 := utf8Encode_lt256 v hv
  have hrange := hexEncode_range (utf8Encode v) hb
  have hascii : ∀ x ∈ hexEncode (utf8Encode v), x < 0x80 := by
    intro x hx
    rcases hrange x hx with h | h <;> omega
  have hnws : ∀ x ∈ hexEncode (utf8Encode v), isWhitespace x = false := by
    intro x hx
    rcases hrange x hx with h | h <;> (simp [isWhitespace]; omega)
  have hnonempty : hexEncode (utf8Encode v) ≠ [] :=
    hexEncode_ne_nil _ (utf8Encode_ne_nil v hne)
  simp [finalizeRdn, utf8Decode_ascii _ hascii, trimList_eq_self _ hnws, hnonempty,
        hexDecode_hexEncode _ hb, utf8Decode_utf8Encode v hv]

theorem finalizeRdn_accumulated (r : RelativeDistinguishedName)
    (rdns : List RelativeDistinguishedName) (isEof : Bool)
    (hne : r.value ≠ []) (hv : ∀ c ∈ r.value, isValidScalar c = true)
    (htrim : r.ty.of_encodes_as_hex = false → trimList r.value = r.value) :
    finalizeRdn ⟨rdns,
        (if r.ty.of_encodes_as_hex then hexEncode (utf8Encode r.value)
         else utf8Encode r.value), .none, r.ty.of_encodes_as_hex, some r.ty⟩ isEof =
      .ok ⟨rdns ++ [r], [], .none, false, Option.none⟩ := by
  obtain ⟨t, v⟩ := r
  by_cases hhex : RdnType.of_encodes_as_hex t = true
  · rw [show (RelativeDistinguishedName.mk t v).ty = t from rfl] at *
    rw [hhex]
    simp only [if_true]
    exact finalizeRdn_push_hex rdns t v isEof hv hne
  · have hhex' : RdnType.of_encodes_as_hex t = false := by
      revert hhex; cases RdnType.of_encodes_as_hex t <;> simp
    rw [show (RelativeDistinguishedName.mk t v).ty = t from rfl] at *
    rw [hhex']
    simp only [Bool.false_eq_true, if_false]
    exact finalizeRdn_push rdns t v isEof hv hne (htrim hhex')

theorem runParse_rdn (r : RelativeDistinguishedName)
    (rdns : List RelativeDistinguishedName) (rest : List ParseItem)
    (hv : ∀ c ∈ r.value, isValidScalar c = true) :
    runParse ⟨rdns, [], .none, false, Option.none⟩
        ((utf8Encode r.toOf).map .byte ++ rest) =
      runParse ⟨rdns,
        (if r.ty.of_encodes_as_hex then hexEncode (utf8Encode r.value)
         else utf8Encode r.value), .none, r.ty.of_encodes_as_hex, some r.ty⟩ rest := by
  obtain ⟨henc, hspec, hascii, htrim, hne, hres⟩ := label_facts r.ty
  unfold RelativeDistinguishedName.toOf
  rw [utf8Encode_append, utf8Encode_append, henc,
      show utf8Encode [61] = [61] from rfl]
  simp only [List.map_append, List.append_assoc]
  rw [runParse_literal_run r.ty.as_of_str hspec rdns [] false Option.none]
  simp only [List.nil_append, List.map_cons, List.map_nil, List.singleton_append,
    List.cons_append]
  rw [runParse, parseStep_label_equals rdns false r.ty]
  simp only
  by_cases hhex : RdnType.of_encodes_as_hex r.ty = true
  · rw [hhex]
    simp only [if_true]
    have hb : ∀ b ∈ utf8Encode r.value, b < 256 := utf8Encode_lt256 r.value hv
    have hrange := hexEncode_range (utf8Encode r.value) hb
    have hhexenc : utf8Encode (35 :: hexEncode (utf8Encode r.value)) =
        35 :: hexEncode (utf8Encode r.value) := by
      apply utf8Encode_ascii
      intro b hbm
      rcases List.mem_cons.mp hbm with rfl | hbm'
      · norm_num
      · rcases hrange b hbm' with h | h <;> omega
    rw [hhexenc]
    simp only [List.map_cons, List.cons_append]
    rw [runParse,
        show parseStep ⟨rdns, [], .none, false, some r.ty⟩ (.byte 35) =
          .ok ⟨rdns, [], .none, true, some r.ty⟩ by
            simp [parseStep, Escaping.is_pending]]
    simp only
    rw [runParse_literal_run (hexEncode (utf8Encode r.value))
      (fun b hbm => by rcases hrange b hbm with h | h <;>
        exact ⟨by omega, by omega, by omega, by omega, by omega⟩)
      rdns [] true (some r.ty)]
    simp
  · have hhex' : RdnType.of_encodes_as_hex r.ty = false := by
      revert hhex; cases RdnType.of_encodes_as_hex r.ty <;> simp
    rw [hhex']
    simp only [Bool.false_eq_true, if_false]
    rw [runParse_escaped_value r.value hv rdns [] false (some r.ty)]
    simp

theorem runParse_joinRdns (L : List RelativeDistinguishedName)
    (hL : ∀ r ∈ L, r.value ≠ [] ∧ (∀ c ∈ r.value, isValidScalar c = true) ∧
      (r.ty.of_encodes_as_hex = false → trimList r.value = r.value))
    (rdns : List RelativeDistinguishedName) :
    runParse ⟨rdns, [], .none, false, Option.none⟩
        ((utf8Encode (joinRdns L)).map .byte ++ [.eof]) =
      .ok ⟨rdns ++ L, [], .none, false, Option.none⟩ := by
  induction L generalizing rdns with
  | nil =>
    rw [show utf8Encode (joinRdns []) = [] from rfl]
    simp only [List.map_nil, List.nil_append]
    rw [runParse, parseStep_eof _ rfl,
        show finalizeRdn ⟨rdns, [], .none, false, Option.none⟩ true =
          .ok ⟨rdns, [], .none, false, Option.none⟩ by
            simp [finalizeRdn, utf8Decode, utf8DecodeFuel, trimList]]
    simp [runParse]
  | cons r rs ih =>
    have hr := hL r (List.mem_cons_self r rs)
    rw [show joinRdns (r :: rs) = r.toOf ++ joinTail rs from rfl, utf8Encode_append]
    simp only [List.map_append, List.append_assoc]
    rw [runParse_rdn r rdns _ hr.2.1]
    cases rs with
    | nil =>
      rw [show joinTail ([] : List RelativeDistinguishedName) = [] from rfl,
          show utf8Encode [] = [] from rfl]
      simp only [List.map_nil, List.nil_append]
      rw [runParse, parseStep_eof _ rfl,
          finalizeRdn_accumulated r rdns true hr.1 hr.2.1 hr.2.2]
      simp [runParse]
    | cons r' rs' =>
      rw [show joinTail (r' :: rs') = 44 :: joinRdns (r' :: rs') from rfl,
          show utf8Encode (44 :: joinRdns (r' :: rs')) =
            44 :: utf8Encode (joinRdns (r' :: rs')) by
              simp [utf8Encode]; rfl]
      simp only [List.map_cons, List.cons_append]
      rw [runParse, parseStep_comma _ rfl,
          finalizeRdn_accumulated r rdns false hr.1 hr.2.1 hr.2.2]
      simp only
      rw [ih (fun x hx => hL x (List.mem_cons_of_mem r hx)) (rdns ++ [r])]
      simp



theorem cn_hash_prefix (rest : List ParseItem) :
    runParse initState ((str "CN=#").map .byte ++ rest) =
      runParse ⟨[], [], .none, true, some .Cn⟩ rest := by
  rw [show (str "CN=#").map ParseItem.byte ++ rest =
    .byte 67 :: (.byte 78 :: (.byte 61 :: (.byte 35 :: rest))) from rfl]
  rw [runParse, show parseStep initState (.byte 67) =
    .ok ⟨[], [67], .none, false, Option.none⟩ by decide]
  simp only
  rw [runParse, show parseStep ⟨[], [67], .none, false, Option.none⟩ (.byte 78) =
    .ok ⟨[], [67, 78], .none, false, Option.none⟩ by decide]
  simp only
  rw [runParse, show parseStep ⟨[], [67, 78], .none, false, Option.none⟩ (.byte 61) =
    .ok ⟨[], [], .none, false, some .Cn⟩ by decide]
  simp only
  rw [runParse, show parseStep ⟨[], [], .none, false, some .Cn⟩ (.byte 35) =
    .ok ⟨[], [], .none, true, some .Cn⟩ by decide]

theorem runParse_L_eq_x (rdns : List RelativeDistinguishedName) :
    runParse ⟨rdns, [], .none, false, Option.none⟩ ((str "L=x").map .byte ++ [.eof]) =
      .ok ⟨rdns ++ [⟨.L, str "x"⟩], [], .none, false, Option.none⟩ := by
  rw [show (str "L=x").map ParseItem.byte ++ [ParseItem.eof] =
    .byte 76 :: (.byte 61 :: (.byte 120 :: [.eof])) from rfl]
  rw [runParse, parseStep_literal rdns [] false Option.none 76 (by omega)]
  simp only
  rw [runParse, show ([] ++ [76] : List Nat) = RdnType.L.as_of_str from rfl,
      parseStep_label_equals rdns false .L]
  simp only
  rw [runParse, parseStep_literal rdns [] false (some RdnType.L) 120 (by omega)]
  simp only
  rw [runParse, parseStep_eof _ rfl,
      show ([] ++ [120] : List Nat) = utf8Encode (str "x") from rfl,
      finalizeRdn_push rdns .L (str "x") true (by decide) (by decide) (by decide)]
  simp only [runParse]

/-- C5 counterexample: the parser trims the collected text before
hex-decoding it: the value block of `"CN=#2061 "` collects the characters
`"2061 "`, which are not valid hex as one block (trailing space, odd length),
yet the parse succeeds — so malformed collected text does not always fail. -/
theorem hex_octet_counterexample :
    hexDecode (str "2061 ") = .error .Hex ∧
    DistinguishedName.from_str (str "CN=#2061 ") = .ok ⟨[⟨.Cn, str " a"⟩]⟩ := by
  decide

/-- C5 (amended): when a value starts with an unescaped `#` (empty
accumulator), the characters up to the next unescaped comma or end of input
are collected, whitespace is trimmed from both ends of the collected text, and
the trimmed text is hex-decoded as one block and the decoded bytes
UTF-8-validated; malformed trimmed hex fails the whole parse with the hex
error, invalid UTF-8 with the UTF-8 error, and no partial DN is ever
produced. -/
theorem hex_octet_value (b : List Nat) (hne : trimList b ≠ [])
    (hb : ∀ x ∈ b, 0x20 ≤ x ∧ x ≤ 0x7E ∧ x ≠ 35 ∧ x ≠ 43 ∧ x ≠ 44 ∧ x ≠ 61 ∧ x ≠ 92) :
    DistinguishedName.from_str (str "CN=#" ++ b) =
      (match hexDecode (trimList b) with
       | .error e => .error e
       | .ok bytes =>
         match utf8Decode bytes with
         | Option.none => .error .Utf8
         | some cs => .ok ⟨[⟨.Cn, cs⟩]⟩) ∧
    DistinguishedName.from_str (str "CN=#" ++ b ++ str ",L=x") =
      (match hexDecode (trimList b) with
       | .error e => .error e
       | .ok bytes =>
         match utf8Decode bytes with
         | Option.none => .error .Utf8
         | some cs => .ok ⟨[⟨.L, str "x"⟩, ⟨.Cn, cs⟩]⟩) := by
  have hascii : ∀ x ∈ b, x < 0x80 := fun x hx => by have := hb x hx; omega
  have hspec : ∀ x ∈ b, x ≠ 44 ∧ x ≠ 61 ∧ x ≠ 92 ∧ x ≠ 35 ∧ x ≠ 43 := fun x hx => by
    have := hb x hx
    exact ⟨this.2.2.2.2.1, this.2.2.2.2.2.1, this.2.2.2.2.2.2, this.2.2.1, this.2.2.2.1⟩
  constructor
  · unfold DistinguishedName.from_str
    rw [List.map_append, List.append_assoc, cn_hash_prefix,
        runParse_literal_run b hspec [] [] true (some .Cn) [.eof]]
    simp only [List.nil_append]
    rw [runParse, parseStep_eof _ rfl]
    unfold finalizeRdn
    rw [utf8Decode_ascii b hascii]
    simp only
    rw [if_neg hne]
    simp only [if_true]
    cases hd : hexDecode (trimList b) with
    | error e => rfl
    | ok bytes =>
      dsimp only
      cases hu : utf8Decode bytes with
      | none => rfl
      | some cs => simp [runParse]
  · unfold DistinguishedName.from_str
    rw [show str "CN=#" ++ b ++ str ",L=x" = str "CN=#" ++ (b ++ str ",L=x") by
      simp [List.append_assoc]]
    rw [List.map_append, List.append_assoc, cn_hash_prefix, List.map_append,
        List.append_assoc, runParse_literal_run b hspec [] [] true (some .Cn)]
    simp only [List.nil_append]
    rw [show (str ",L=x").map ParseItem.byte ++ [ParseItem.eof] =
      .byte 44 :: ((str "L=x").map ParseItem.byte ++ [ParseItem.eof]) from rfl]
    rw [runParse, parseStep_comma _ rfl]
    unfold finalizeRdn
    rw [utf8Decode_ascii b hascii]
    simp only
    rw [if_neg hne]
    simp only [if_true]
    cases hd : hexDecode (trimList b) with
    | error e => rfl
    | ok bytes =>
      dsimp only
      cases hu : utf8Decode bytes with
      | none => rfl
      | some cs =>
        dsimp only
        rw [show ([] ++ [(⟨.Cn, cs⟩ : RelativeDistinguishedName)]) =
          [(⟨.Cn, cs⟩ : RelativeDistinguishedName)] from rfl]
        rw [runParse_L_eq_x [⟨.Cn, cs⟩]]
        rfl

/-- C5 witness: `"CN=# 2061 "` trims to `"2061"` and decodes to the single
RDN `(Cn, " a")`, before end of input or a following `,L=x` RDN alike. -/
theorem hex_octet_value_witness :
    DistinguishedName.from_str (str "CN=#" ++ str " 2061 ") =
      (match hexDecode (trimList (str " 2061 ")) with
       | .error e => .error e
       | .ok bytes =>
         match utf8Decode bytes with
         | Option.none => .error .Utf8
         | some cs => .ok ⟨[⟨.Cn, cs⟩]⟩) ∧
    DistinguishedName.from_str (str "CN=#" ++ str " 2061 " ++ str ",L=x") =
      (match hexDecode (trimList (str " 2061 ")) with
       | .error e => .error e
       | .ok bytes =>
         match utf8Decode bytes with
         | Option.none => .error .Utf8
         | some cs => .ok ⟨[⟨.L, str "x"⟩, ⟨.Cn, cs⟩]⟩) :=
  hex_octet_value (str " 2061 ") (by decide) (by decide)

/-- C1: the claim fails even for parse-produced DNs: `"CN=#2061"` parses to
the DN `[(Cn, " a")]`, which serializes to `"CN=\ a"`; re-parsing trims the
escaped space away, so re-serializing yields `"CN=a"`, a different string. -/
theorem round_trip_counterexample :
    DistinguishedName.from_str (str "CN=#2061") = .ok ⟨[⟨.Cn, str " a"⟩]⟩ ∧
    DistinguishedName.to_of_string ⟨[⟨.Cn, str " a"⟩]⟩ = str "CN=\\ a" ∧
    DistinguishedName.from_str
      (utf8Encode (DistinguishedName.to_of_string ⟨[⟨.Cn, str " a"⟩]⟩)) =
      .ok ⟨[⟨.Cn, str "a"⟩]⟩ ∧
    DistinguishedName.to_of_string ⟨[⟨.Cn, str "a"⟩]⟩ ≠
      DistinguishedName.to_of_string ⟨[⟨.Cn, str " a"⟩]⟩ := by
  decide

/-- C1 (amended): for every DN whose RDN values are non-empty sequences of
valid Unicode scalars and, for the non-hex-encoded types, unchanged by
trimming, parsing the serialized string succeeds, yields the DN itself, and
re-serializing yields the identical string. (Parse-produced DNs can violate
the trimming side condition through hex-octet values, as the counterexample
shows.) -/
theorem round_trip_fixed_point (dn : DistinguishedName)
    (h : ∀ r ∈ dn.rdns, r.value ≠ [] ∧ (∀ c ∈ r.value, isValidScalar c = true) ∧
      (r.ty.of_encodes_as_hex = false → trimList r.value = r.value)) :
    DistinguishedName.from_str (utf8Encode dn.to_of_string) = .ok dn ∧
    (DistinguishedName.from_str (utf8Encode dn.to_of_string)).map
      DistinguishedName.to_of_string = .ok dn.to_of_string := by
  obtain ⟨rdns⟩ := dn
  have hmain := runParse_joinRdns rdns.reverse
    (fun r hr => h r (List.mem_reverse.mp hr)) []
  have h1 : DistinguishedName.from_str
      (utf8Encode (DistinguishedName.to_of_string ⟨rdns⟩)) = .ok ⟨rdns⟩ := by
    unfold DistinguishedName.from_str DistinguishedName.to_of_string
    rw [show initState = (⟨[], [], .none, false, Option.none⟩ : ParseState) from rfl]
    rw [hmain]
    simp
  exact ⟨h1, by rw [h1]; rfl⟩

/-- C1 witness: a two-RDN DN with one hex-encoded type round-trips. -/
theorem round_trip_witness :
    DistinguishedName.from_str (utf8Encode (DistinguishedName.to_of_string
      ⟨[⟨.SerialNumber, str "42"⟩, ⟨.Cn, str "ab"⟩]⟩)) =
      .ok ⟨[⟨.SerialNumber, str "42"⟩, ⟨.Cn, str "ab"⟩]⟩ ∧
    (DistinguishedName.from_str (utf8Encode (DistinguishedName.to_of_string
      ⟨[⟨.SerialNumber, str "42"⟩, ⟨.Cn, str "ab"⟩]⟩))).map
      DistinguishedName.to_of_string =
      .ok (DistinguishedName.to_of_string
        ⟨[⟨.SerialNumber, str "42"⟩, ⟨.Cn, str "ab"⟩]⟩) :=
  round_trip_fixed_point ⟨[⟨.SerialNumber, str "42"⟩, ⟨.Cn, str "ab"⟩]⟩ (by decide)



/-- C6: the escaping sub-machine: a backslash outside an escape enters the
escape state; a reserved-symbol byte after the backslash is emitted literally
into the value; any other byte starts a two-digit hex escape whose two bytes
decode to one emitted raw byte, failing with the hex error when they are not
hex digits; and input ending while an escape is pending fails with
`UnexpectedEof`. -/
theorem escaping_machine :
    (∀ st : ParseState, st.escaping = .none →
      parseStep st (.byte 92) = .ok { st with escaping := .started }) ∧
    (∀ (st : ParseState) (b : Nat), st.escaping = .started → b ∈ ESCAPABLE_SYMBOLS →
      parseStep st (.byte b) =
        .ok { st with acc := st.acc ++ [b], escaping := .none }) ∧
    (∀ (st : ParseState) (b : Nat), st.escaping = .started → b ∉ ESCAPABLE_SYMBOLS →
      parseStep st (.byte b) = .ok { st with escaping := .hex b }) ∧
    (∀ (st : ParseState) (p c x y : Nat), st.escaping = .hex p →
      hexVal p = some x → hexVal c = some y →
      parseStep st (.byte c) =
        .ok { st with acc := st.acc ++ [x * 16 + y], escaping := .none }) ∧
    (∀ (st : ParseState) (p c : Nat), st.escaping = .hex p →
      (hexVal p = Option.none ∨ hexVal c = Option.none) →
      parseStep st (.byte c) = .error .Hex) ∧
    (∀ st : ParseState, st.escaping.is_pending = true →
      parseStep st .eof = .error .UnexpectedEof) ∧
    DistinguishedName.from_str (str "CN=\\") = .error .UnexpectedEof ∧
    DistinguishedName.from_str (str "CN=\\6") = .error .UnexpectedEof := by
  refine ⟨fun st h => ?_, fun st b h hb => ?_, fun st b h hb => ?_,
    fun st p c x y h hp hc => ?_, fun st p c h hpc => ?_, fun st h => ?_,
    by decide, by decide⟩
  · simp [parseStep, h, Escaping.is_pending]
  · simp [parseStep, h, Escaping.is_pending, Escaping.consume, hb]
  · simp [parseStep, h, Escaping.is_pending, Escaping.consume, hb]
  · simp [parseStep, h, Escaping.is_pending, Escaping.consume, hp, hc]
  · rcases hpc with hp | hc
    · simp only [parseStep, h, Escaping.is_pending, if_true]
      cases hcv : hexVal c <;> simp [Escaping.consume, hp, hcv]
    · simp [parseStep, h, Escaping.is_pending, Escaping.consume, hc]
  · unfold parseStep
    rw [if_pos h]

/-- C6 witness: each sub-machine rule applied at a concrete state: entering
the escape, a literal escaped comma, starting and finishing the hex escape
`\61`, a failing hex escape `\6g`, and the pending-escape end of input. -/
theorem escaping_machine_witness :
    parseStep initState (.byte 92) = .ok { initState with escaping := .started } ∧
    parseStep ⟨[], [], .started, false, Option.none⟩ (.byte 44) =
      .ok ⟨[], [44], .none, false, Option.none⟩ ∧
    parseStep ⟨[], [], .started, false, Option.none⟩ (.byte 54) =
      .ok ⟨[], [], .hex 54, false, Option.none⟩ ∧
    parseStep ⟨[], [], .hex 54, false, Option.none⟩ (.byte 49) =
      .ok ⟨[], [97], .none, false, Option.none⟩ ∧
    parseStep ⟨[], [], .hex 54, false, Option.none⟩ (.byte 103) = .error .Hex ∧
    parseStep ⟨[], [], .started, false, Option.none⟩ .eof = .error .UnexpectedEof := by
  refine ⟨escaping_machine.1 initState rfl,
    escaping_machine.2.1 ⟨[], [], .started, false, Option.none⟩ 44 rfl (by decide),
    escaping_machine.2.2.1 ⟨[], [], .started, false, Option.none⟩ 54 rfl (by decide),
    escaping_machine.2.2.2.1 ⟨[], [], .hex 54, false, Option.none⟩ 54 49 6 1 rfl
      (by decide) (by decide),
    escaping_machine.2.2.2.2.1 ⟨[], [], .hex 54, false, Option.none⟩ 54 103 rfl
      (.inr (by decide)),
    escaping_machine.2.2.2.2.2.1 ⟨[], [], .started, false, Option.none⟩ rfl⟩

end OfDnParser
